import Mathlib

/-!
Verification of the `new_puzzle.py` scaffold generator (aoc2020).

The script is embedded shallowly: Python `str` values become `List Char`,
the builtins the script uses (`str.replace`, `int`, `str`/`%d`, `repr`,
`os.path.join`) are translated as executable Lean functions, and the
`__main__` block becomes a function from the invocation context
(script directory, `sys.argv`, whether the target directory exists)
to an outcome record (exit status, stderr text, file written).
-/

set_option autoImplicit false
set_option maxRecDepth 8000

namespace NewPuzzle

/-- Python `str` values are modelled as lists of characters. -/
abbrev PyString := List Char

/-- Boolean test that `pat` is a prefix of `s` (substring match at a fixed
position, as used by Python `str.replace` and `str.count` scans). -/
def isPrefixL : PyString → PyString → Bool
  | [], _ => true
  | _ :: _, [] => false
  | a :: as, b :: bs => a == b && isPrefixL as bs

/-- Scanning worker for Python `s.replace(pat, rep)`, structurally
recursive on a fuel bound on the number of scan steps (one character or
one whole match is consumed per step, so `s.length` steps suffice). -/
def strReplaceAux (pat rep : PyString) : Nat → PyString → PyString
  | _, [] => []
  | 0, s => s
  | fuel + 1, c :: rest =>
    if isPrefixL pat (c :: rest) = true ∧ pat ≠ [] then
      rep ++ strReplaceAux pat rep fuel ((c :: rest).drop pat.length)
    else
      c :: strReplaceAux pat rep fuel rest

/-- Python `s.replace(pat, rep)` for a nonempty `pat`: scan left to right,
replacing non-overlapping occurrences of `pat` by `rep`.  (The script only
ever calls it with the nonempty pattern `"<D>"`; for an empty `pat` this
model leaves `s` unchanged.) -/
def strReplace (pat rep s : PyString) : PyString :=
  strReplaceAux pat rep s.length s

/-- Scanning worker for Python `s.count(pat)`, with the same fuel scheme
as `strReplaceAux`. -/
def strCountAux (pat : PyString) : Nat → PyString → Nat
  | _, [] => 0
  | 0, _ => 0
  | fuel + 1, c :: rest =>
    if isPrefixL pat (c :: rest) = true ∧ pat ≠ [] then
      1 + strCountAux pat fuel ((c :: rest).drop pat.length)
    else
      strCountAux pat fuel rest

/-- Python `s.count(pat)` for a nonempty `pat`: the number of
non-overlapping occurrences of `pat` in `s`, scanning left to right. -/
def strCount (pat s : PyString) : Nat :=
  strCountAux pat s.length s

/-- The character for decimal digit `d` (`0 ≤ d ≤ 9`). -/
def digitChar (d : Nat) : Char := Char.ofNat (48 + d)

/-- Worker for `natDigits`, structurally recursive on a fuel bound on the
number of digits (`m + 1` always suffices since `m / 10 < m` for `m > 0`). -/
def natDigitsAux : Nat → Nat → PyString
  | 0, _ => []
  | fuel + 1, m =>
    if m < 10 then [digitChar m]
    else natDigitsAux fuel (m / 10) ++ [digitChar (m % 10)]

/-- Decimal digit string of a natural number, most significant digit first
(the digits of Python `str`/`%d` on a non-negative int). -/
def natDigits (m : Nat) : PyString := natDigitsAux (m + 1) m

theorem natDigitsAux_fuel : ∀ (f m : Nat), m < f → natDigitsAux f m = natDigits m := by
  intro f
  induction f using Nat.strong_induction_on with
  | _ f ih =>
    intro m hm
    cases f with
    | zero => omega
    | succ f' =>
      show (if m < 10 then [digitChar m] else natDigitsAux f' (m / 10) ++ [digitChar (m % 10)]) = _
      unfold natDigits
      show _ = (if m < 10 then [digitChar m] else natDigitsAux m (m / 10) ++ [digitChar (m % 10)])
      by_cases h10 : m < 10
      · rw [if_pos h10, if_pos h10]
      · rw [if_neg h10, if_neg h10]
        have hlt : m / 10 < m := Nat.div_lt_self (by omega) (by omega)
        rw [ih f' (by omega) (m / 10) (by omega), ih m (by omega) (m / 10) hlt]

theorem natDigits_eq (m : Nat) :
    natDigits m = if m < 10 then [digitChar m]
      else natDigits (m / 10) ++ [digitChar (m % 10)] := by
  show (if m < 10 then [digitChar m] else natDigitsAux m (m / 10) ++ [digitChar (m % 10)]) = _
  by_cases h10 : m < 10
  · rw [if_pos h10, if_pos h10]
  · rw [if_neg h10, if_neg h10]
    rw [natDigitsAux_fuel m (m / 10) (Nat.div_lt_self (by omega) (by omega))]

/-- Python `str(n)` (equivalently `'%d' % n`) for an int `n`: decimal form,
with a leading minus sign for negative values. -/
def pyStr (n : Int) : PyString :=
  if n < 0 then '-' :: natDigits n.natAbs else natDigits n.toNat

/-- ASCII whitespace stripped by Python `str.strip` (the model covers the
ASCII whitespace characters; the script's inputs are ASCII). -/
def isPySpace (c : Char) : Bool :=
  c == ' ' || c == '\t' || c == '\n' || c == '\r' || c == '\x0b' || c == '\x0c'

/-- Numeric value of an ASCII decimal digit character, if it is one. -/
def digitVal (c : Char) : Option Nat :=
  if c.isDigit then some (c.toNat - 48) else none

/-- Tail of Python's base-10 digit grammar `digit (["_"] digit)*`:
after an initial digit giving accumulator `acc`, consume further digits,
allowing a single underscore only between two digits. -/
def parseDigitsTail (acc : Nat) : PyString → Option Nat
  | [] => some acc
  | '_' :: c :: rest =>
    match digitVal c with
    | some d => parseDigitsTail (10 * acc + d) rest
    | none => none
  | c :: rest =>
    match digitVal c with
    | some d => parseDigitsTail (10 * acc + d) rest
    | none => none

/-- Python's base-10 digit-part grammar: at least one digit, with single
underscores allowed only between digits. -/
def parseDigits : PyString → Option Nat
  | [] => none
  | c :: rest =>
    match digitVal c with
    | some d => parseDigitsTail d rest
    | none => none

/-- Python `int(s)` for a `str` argument in base 10 (ASCII-level model):
strip surrounding whitespace, accept one optional sign, then a digit part
per `parseDigits`; any other input raises `ValueError` (here: `none`). -/
def pyInt (s : PyString) : Option Int :=
  let t := ((s.dropWhile isPySpace).reverse.dropWhile isPySpace).reverse
  match t with
  | '+' :: rest => (parseDigits rest).map (fun m => (m : Int))
  | '-' :: rest => (parseDigits rest).map (fun m => -(m : Int))
  | rest => (parseDigits rest).map (fun m => (m : Int))

/-- The single-quote character. -/
def squote : Char := Char.ofNat 39

/-- The double-quote character. -/
def dquote : Char := Char.ofNat 34

/-- Lower-case hexadecimal digit character for `d < 16`. -/
def hexDigit (d : Nat) : Char :=
  if d < 10 then digitChar d else Char.ofNat (87 + d)

/-- Escaping of one character inside Python `repr` of a string quoted by
`q`: backslashes and the quote are backslash-escaped, newline, carriage
return and tab use their short escapes, other control characters use
`\xHH`, and printable characters stand for themselves. -/
def pyReprChar (q : Char) (c : Char) : PyString :=
  if c == '\\' then ['\\', '\\']
  else if c == q then ['\\', q]
  else if c == '\n' then ['\\', 'n']
  else if c == '\r' then ['\\', 'r']
  else if c == '\t' then ['\\', 't']
  else if c.toNat < 32 || c.toNat == 127 then
    ['\\', 'x', hexDigit (c.toNat / 16), hexDigit (c.toNat % 16)]
  else [c]

/-- Python `repr(s)` for a `str` (ASCII-level model): single quotes by
default, double quotes when `s` contains a single quote but no double
quote, with characters escaped by `pyReprChar`. -/
def pyRepr (s : PyString) : PyString :=
  let q := if s.contains squote && !(s.contains dquote) then dquote else squote
  q :: (s.map (pyReprChar q)).flatten ++ [q]

/-- The embedded template string of new_puzzle.py (lines 6-34 of the
source, a Rust scaffold with `<D>` placeholders). -/
def template : PyString :=
  ("/*\n** src/puzzle/day<D>.rs\n*/\n\nuse crate::puzzle::*;\n\nconst INPUT: &str = include_str!(\"../../input/<D>.input\");\n\npub struct Day<D> \x7b\x7d\n\nimpl Day<D> \x7b\n    pub fn new() -> Self \x7b\n        Day<D> \x7b\x7d\n    \x7d\n\x7d\n\nimpl Puzzle for Day<D> \x7b\n    // <QUESTION>\n    fn part1(&self) -> Result<Solution> \x7b\n        unimplemented!()\n    \x7d\n\n    // <QUESTION>\n    fn part2(&self) -> Result<Solution> \x7b\n        unimplemented!()\n    \x7d\n\x7d\n" : String).data

/-- The placeholder token `'<D>'` passed to `str.replace` on line 52. -/
def patD : PyString := ['<', 'D', '>']

/-- Literal text of the template before the first placeholder. -/
def seg0 : PyString := ("/*\n** src/puzzle/day" : String).data

/-- Literal text between the first (header comment) and second (resource
path) placeholders. -/
def seg1 : PyString :=
  (".rs\n*/\n\nuse crate::puzzle::*;\n\nconst INPUT: &str = include_str!(\"../../input/" : String).data

/-- Literal text between the second (resource path) and third (struct
declaration) placeholders. -/
def seg2 : PyString := (".input\");\n\npub struct Day" : String).data

/-- Literal text between the third (struct declaration) and fourth
(inherent impl header) placeholders. -/
def seg3 : PyString := (" \x7b\x7d\n\nimpl Day" : String).data

/-- Literal text between the fourth (inherent impl header) and fifth
(constructor reference) placeholders. -/
def seg4 : PyString := (" \x7b\n    pub fn new() -> Self \x7b\n        Day" : String).data

/-- Literal text between the fifth (constructor reference) and sixth
(trait impl header) placeholders. -/
def seg5 : PyString := (" \x7b\x7d\n    \x7d\n\x7d\n\nimpl Puzzle for Day" : String).data

/-- Literal text of the template after the sixth placeholder. -/
def seg6 : PyString :=
  (" \x7b\n    // <QUESTION>\n    fn part1(&self) -> Result<Solution> \x7b\n        unimplemented!()\n    \x7d\n\n    // <QUESTION>\n    fn part2(&self) -> Result<Solution> \x7b\n        unimplemented!()\n    \x7d\n\x7d\n" : String).data

/-- The template's literal segments interleaved with a string `d` at all
six placeholder sites. -/
def interpolate (d : PyString) : PyString :=
  seg0 ++ (d ++ (seg1 ++ (d ++ (seg2 ++ (d ++ (seg3 ++ (d ++ (seg4 ++ (d ++ (seg5 ++ (d ++ seg6)))))))))))

/-- Model of `os.path.join(a, b)` on POSIX: an absolute `b` replaces `a`;
otherwise a separator is inserted unless `a` is empty or already ends in
one. -/
def pathJoin (a b : PyString) : PyString :=
  if b.head? = some '/' then b
  else if a = [] ∨ a.getLast? = some '/' then a ++ b
  else a ++ '/' :: b

/-- The fixed path component `"src"` (line 48). -/
def srcDirName : PyString := ("src" : String).data

/-- The fixed path component `"puzzle"` (line 48). -/
def puzzleDirName : PyString := ("puzzle" : String).data

/-- The output file name `'day%d.rs' % n` (line 51). -/
def dayFileName (n : Int) : PyString :=
  ("day" : String).data ++ pyStr n ++ (".rs" : String).data

/-- `puzzle_dir = os.path.join(current_dir, "src", "puzzle")` (line 48),
with `current_dir = os.path.dirname(os.path.abspath(__file__))`
abstracted as the parameter `scriptDir`. -/
def puzzleDirOf (scriptDir : PyString) : PyString :=
  pathJoin (pathJoin scriptDir srcDirName) puzzleDirName

/-- The full output path `os.path.join(puzzle_dir, 'day%d.rs' % n)`
(line 51). -/
def outputPath (scriptDir : PyString) (n : Int) : PyString :=
  pathJoin (puzzleDirOf scriptDir) (dayFileName n)

/-- The rendered file content `template.replace('<D>', str(n))` (line 52). -/
def rendered (n : Int) : PyString := strReplace patD (pyStr n) template

/-- Outcome of one invocation of the script: process exit status, text
printed to stderr, and the file written (path and content), if any. -/
structure RunResult where
  exitCode : Nat
  stderrText : PyString
  fileWritten : Option (PyString × PyString)
deriving DecidableEq

/-- Message printed by `sys.exit("error: missing argument DAY")` (line 39);
`sys.exit` with a string argument prints it to stderr followed by a
newline. -/
def missingArgMsg : PyString := ("error: missing argument DAY\n" : String).data

/-- Message printed by `sys.exit("error: invalid argument DAY: %r" % n)`
(line 45), where `%r` formats the offending string via `repr`. -/
def invalidArgMsg (s : PyString) : PyString :=
  ("error: invalid argument DAY: " : String).data ++ pyRepr s ++ ['\n']

/-- CPython runtime behaviour at line 51 when the target directory does
not exist: `open(..., 'w')` raises `FileNotFoundError`, which is uncaught,
so the interpreter prints a multi-line traceback to stderr and exits with
status 1. -/
def tracebackText (path : PyString) : PyString :=
  ("Traceback (most recent call last):\n  File \"new_puzzle.py\", line 51, in <module>\n    with open(os.path.join(puzzle_dir, \x27day%d.rs\x27 % n), \x27w\x27) as puzzle_file:\nFileNotFoundError: [Errno 2] No such file or directory: " : String).data
    ++ pyRepr path ++ ['\n']

/-- The `__main__` block of new_puzzle.py (lines 37-52).
`scriptDir` stands for `os.path.dirname(os.path.abspath(__file__))`,
`argv` for `sys.argv` (whose first element is the script name), and
`puzzleDirExists` for whether the target directory exists on disk.
`sys.exit` with a string message exits with status 1 after printing the
message and a newline to stderr; falling off the end of the script exits
with status 0. -/
def runMain (scriptDir : PyString) (argv : List PyString)
    (puzzleDirExists : Bool) : RunResult :=
  match argv with
  | _ :: s :: _ =>
    match pyInt s with
    | none => ⟨1, invalidArgMsg s, none⟩
    | some n =>
      let path := outputPath scriptDir n
      if puzzleDirExists then
        ⟨0, [], some (path, rendered n)⟩
      else
        ⟨1, tracebackText path, none⟩
  | _ => ⟨1, missingArgMsg, none⟩

/-! ### Basic properties of the scanning primitives -/

theorem isPrefixL_iff : ∀ (p s : PyString), isPrefixL p s = true ↔ p <+: s
  | [], s => by simp [isPrefixL]
  | a :: as, [] => by
    simp [isPrefixL]
  | a :: as, b :: bs => by
    simp only [isPrefixL, Bool.and_eq_true, beq_iff_eq]
    constructor
    · rintro ⟨rfl, h⟩
      obtain ⟨t, rfl⟩ := (isPrefixL_iff as bs).mp h
      exact ⟨t, rfl⟩
    · rintro ⟨t, ht⟩
      rw [List.cons_append] at ht
      injection ht with h1 h2
      exact ⟨h1, (isPrefixL_iff as bs).mpr ⟨t, h2⟩⟩

theorem strCountAux_fuel (p : PyString) :
    ∀ (f : Nat) (s : PyString), s.length ≤ f →
      strCountAux p f s = strCountAux p s.length s := by
  intro f
  induction f using Nat.strong_induction_on with
  | _ f ih =>
    intro s hs
    match s with
    | [] => cases f <;> rfl
    | c :: rest =>
      cases f with
      | zero => simp at hs
      | succ f' =>
        simp only [List.length_cons] at hs ⊢
        show (if isPrefixL p (c :: rest) = true ∧ p ≠ [] then
            1 + strCountAux p f' ((c :: rest).drop p.length)
          else strCountAux p f' rest) =
          (if isPrefixL p (c :: rest) = true ∧ p ≠ [] then
            1 + strCountAux p rest.length ((c :: rest).drop p.length)
          else strCountAux p rest.length rest)
        by_cases hcond : isPrefixL p (c :: rest) = true ∧ p ≠ []
        · rw [if_pos hcond, if_pos hcond]
          have hlp : 0 < p.length := List.length_pos.mpr hcond.2
          have hd1 : ((c :: rest).drop p.length).length ≤ f' := by
            simp only [List.length_drop, List.length_cons]
            omega
          have hd2 : ((c :: rest).drop p.length).length ≤ rest.length := by
            simp only [List.length_drop, List.length_cons]
            omega
          rw [ih f' (by omega) _ hd1, ih rest.length (by omega) _ hd2]
        · rw [if_neg hcond, if_neg hcond]
          rw [ih f' (by omega) rest (by omega)]

theorem strReplaceAux_fuel (p r : PyString) :
    ∀ (f : Nat) (s : PyString), s.length ≤ f →
      strReplaceAux p r f s = strReplaceAux p r s.length s := by
  intro f
  induction f using Nat.strong_induction_on with
  | _ f ih =>
    intro s hs
    match s with
    | [] => cases f <;> rfl
    | c :: rest =>
      cases f with
      | zero => simp at hs
      | succ f' =>
        simp only [List.length_cons] at hs ⊢
        show (if isPrefixL p (c :: rest) = true ∧ p ≠ [] then
            r ++ strReplaceAux p r f' ((c :: rest).drop p.length)
          else c :: strReplaceAux p r f' rest) =
          (if isPrefixL p (c :: rest) = true ∧ p ≠ [] then
            r ++ strReplaceAux p r rest.length ((c :: rest).drop p.length)
          else c :: strReplaceAux p r rest.length rest)
        by_cases hcond : isPrefixL p (c :: rest) = true ∧ p ≠ []
        · rw [if_pos hcond, if_pos hcond]
          have hlp : 0 < p.length := List.length_pos.mpr hcond.2
          have hd1 : ((c :: rest).drop p.length).length ≤ f' := by
            simp only [List.length_drop, List.length_cons]
            omega
          have hd2 : ((c :: rest).drop p.length).length ≤ rest.length := by
            simp only [List.length_drop, List.length_cons]
            omega
          rw [ih f' (by omega) _ hd1, ih rest.length (by omega) _ hd2]
        · rw [if_neg hcond, if_neg hcond]
          rw [ih f' (by omega) rest (by omega)]

theorem strCount_nil (p : PyString) : strCount p [] = 0 := rfl

theorem strCount_cons_pos (p : PyString) (c : Char) (rest : PyString)
    (h1 : isPrefixL p (c :: rest) = true) (h2 : p ≠ []) :
    strCount p (c :: rest) = 1 + strCount p ((c :: rest).drop p.length) := by
  show strCountAux p (c :: rest).length (c :: rest) = _
  rw [List.length_cons]
  show (if isPrefixL p (c :: rest) = true ∧ p ≠ [] then
      1 + strCountAux p rest.length ((c :: rest).drop p.length)
    else strCountAux p rest.length rest) = _
  rw [if_pos ⟨h1, h2⟩]
  have hlp : 0 < p.length := List.length_pos.mpr h2
  rw [strCountAux_fuel p rest.length ((c :: rest).drop p.length)
    (by simp only [List.length_drop, List.length_cons]; omega)]
  rfl

theorem strCount_cons_neg (p : PyString) (c : Char) (rest : PyString)
    (h : ¬(isPrefixL p (c :: rest) = true ∧ p ≠ [])) :
    strCount p (c :: rest) = strCount p rest := by
  show strCountAux p (c :: rest).length (c :: rest) = _
  rw [List.length_cons]
  show (if isPrefixL p (c :: rest) = true ∧ p ≠ [] then
      1 + strCountAux p rest.length ((c :: rest).drop p.length)
    else strCountAux p rest.length rest) = _
  rw [if_neg h]
  rfl

theorem strReplace_nil (p r : PyString) : strReplace p r [] = [] := rfl

theorem strReplace_cons_pos (p r : PyString) (c : Char) (rest : PyString)
    (h1 : isPrefixL p (c :: rest) = true) (h2 : p ≠ []) :
    strReplace p r (c :: rest) = r ++ strReplace p r ((c :: rest).drop p.length) := by
  show strReplaceAux p r (c :: rest).length (c :: rest) = _
  rw [List.length_cons]
  show (if isPrefixL p (c :: rest) = true ∧ p ≠ [] then
      r ++ strReplaceAux p r rest.length ((c :: rest).drop p.length)
    else c :: strReplaceAux p r rest.length rest) = _
  rw [if_pos ⟨h1, h2⟩]
  have hlp : 0 < p.length := List.length_pos.mpr h2
  rw [strReplaceAux_fuel p r rest.length ((c :: rest).drop p.length)
    (by simp only [List.length_drop, List.length_cons]; omega)]
  rfl

theorem strReplace_cons_neg (p r : PyString) (c : Char) (rest : PyString)
    (h : ¬(isPrefixL p (c :: rest) = true ∧ p ≠ [])) :
    strReplace p r (c :: rest) = c :: strReplace p r rest := by
  show strReplaceAux p r (c :: rest).length (c :: rest) = _
  rw [List.length_cons]
  show (if isPrefixL p (c :: rest) = true ∧ p ≠ [] then
      r ++ strReplaceAux p r rest.length ((c :: rest).drop p.length)
    else c :: strReplaceAux p r rest.length rest) = _
  rw [if_neg h]
  rfl

/-- An occurrence of `p` as a contiguous substring of `s`. -/
def HasOcc (p s : PyString) : Prop := ∃ pre post, pre ++ p ++ post = s

theorem hasOcc_of_count_ne_zero (p : PyString) :
    ∀ (s : PyString), strCount p s ≠ 0 → HasOcc p s
  | [], h => absurd (strCount_nil p) h
  | c :: rest, h => by
    by_cases hm : isPrefixL p (c :: rest) = true ∧ p ≠ []
    · obtain ⟨t, ht⟩ := (isPrefixL_iff p (c :: rest)).mp hm.1
      exact ⟨[], t, by simpa using ht⟩
    · rw [strCount_cons_neg p c rest hm] at h
      obtain ⟨pre, post, hpp⟩ := hasOcc_of_count_ne_zero p rest h
      exact ⟨c :: pre, post, by simp only [List.cons_append, List.append_assoc] at hpp ⊢; rw [hpp]⟩

theorem count_ne_zero_of_hasOcc (p : PyString) (hp : p ≠ []) :
    ∀ (pre post s : PyString), pre ++ p ++ post = s → strCount p s ≠ 0
  | [], post, s, h => by
    obtain ⟨e, p', rfl⟩ : ∃ e p', p = e :: p' := by
      cases p with
      | nil => exact absurd rfl hp
      | cons e p' => exact ⟨e, p', rfl⟩
    simp only [List.nil_append] at h
    subst h
    rw [List.cons_append, strCount_cons_pos _ e (p' ++ post)
      ((isPrefixL_iff _ _).mpr ⟨post, by simp⟩) hp]
    omega
  | c :: pre', post, s, h => by
    simp only [List.cons_append, List.append_assoc] at h
    subst h
    by_cases hm : isPrefixL p (c :: (pre' ++ (p ++ post))) = true ∧ p ≠ []
    · rw [strCount_cons_pos _ c _ hm.1 hm.2]
      omega
    · rw [strCount_cons_neg _ c _ hm]
      have := count_ne_zero_of_hasOcc p hp pre' post (pre' ++ (p ++ post)) (by simp)
      exact this

theorem strCount_eq_zero_iff (p s : PyString) (hp : p ≠ []) :
    strCount p s = 0 ↔ ¬ HasOcc p s := by
  constructor
  · rintro h ⟨pre, post, hocc⟩
    exact count_ne_zero_of_hasOcc p hp pre post s hocc h
  · intro h
    by_contra hne
    obtain ⟨pre, post, hocc⟩ := hasOcc_of_count_ne_zero p s hne
    exact h ⟨pre, post, hocc⟩

/-- Splitting the occurrence count across a concatenation: if no match of
`p` found by the left-to-right scan starts inside `a` and crosses into
`b`, the count over `a ++ b` is the sum of the two counts. -/
theorem strCount_append_aux (p : PyString) (hp : p ≠ []) :
    ∀ (N : Nat) (a b : PyString), a.length ≤ N →
      (∀ i, i < a.length → isPrefixL p ((a ++ b).drop i) = true → i + p.length ≤ a.length) →
      strCount p (a ++ b) = strCount p a + strCount p b := by
  intro N
  induction N with
  | zero =>
    intro a b ha _
    have : a = [] := List.eq_nil_of_length_eq_zero (Nat.le_zero.mp ha)
    subst this
    simp [strCount_nil]
  | succ N ih =>
    intro a b ha hcond
    match a with
    | [] => simp [strCount_nil]
    | c :: a' =>
      have hplen : 0 < p.length := List.length_pos.mpr hp
      by_cases hm : isPrefixL p ((c :: a') ++ b) = true
      · have hfit : p.length ≤ (c :: a').length := by
          have := hcond 0 (by simp) (by simpa using hm)
          omega
        have hpa : isPrefixL p (c :: a') = true := by
          rw [isPrefixL_iff]
          exact List.prefix_of_prefix_length_le ((isPrefixL_iff _ _).mp hm)
            (List.prefix_append _ _) hfit
        rw [show (c :: a') ++ b = c :: (a' ++ b) from rfl] at hm ⊢
        rw [strCount_cons_pos p c (a' ++ b) hm hp]
        rw [strCount_cons_pos p c a' hpa hp]
        have hd1 : (c :: (a' ++ b)).drop p.length = ((c :: a').drop p.length) ++ b := by
          rw [show c :: (a' ++ b) = (c :: a') ++ b from rfl]
          exact List.drop_append_of_le_length hfit
        rw [hd1]
        rw [ih ((c :: a').drop p.length) b
          (by simp only [List.length_cons] at ha; simp only [List.length_drop, List.length_cons]; omega) ?_]
        · omega
        · intro i hi hpre
          have hdd : ((c :: a').drop p.length ++ b).drop i = ((c :: a') ++ b).drop (p.length + i) := by
            rw [← List.drop_append_of_le_length hfit, List.drop_drop]
          rw [hdd] at hpre
          simp only [List.length_drop] at hi ⊢
          have := hcond (p.length + i) (by simp only [List.length_cons] at *; omega) hpre
          omega
      · have hpa : ¬(isPrefixL p (c :: a') = true ∧ p ≠ []) := by
          rintro ⟨h1, -⟩
          obtain ⟨t, ht⟩ := (isPrefixL_iff _ _).mp h1
          exact hm ((isPrefixL_iff _ _).mpr ⟨t ++ b, by rw [← List.append_assoc, ht]⟩)
        rw [show (c :: a') ++ b = c :: (a' ++ b) from rfl] at hm ⊢
        rw [strCount_cons_neg p c (a' ++ b) (fun hc => hm hc.1)]
        rw [strCount_cons_neg p c a' hpa]
        apply ih a' b (by simp only [List.length_cons] at ha; omega)
        intro i hi hpre
        have : (a' ++ b).drop i = ((c :: a') ++ b).drop (i + 1) := rfl
        rw [this] at hpre
        have := hcond (i + 1) (by simp only [List.length_cons]; omega) hpre
        simp only [List.length_cons] at this
        omega

theorem strCount_append (p : PyString) (hp : p ≠ []) (a b : PyString)
    (hcond : ∀ i, i < a.length → isPrefixL p ((a ++ b).drop i) = true →
      i + p.length ≤ a.length) :
    strCount p (a ++ b) = strCount p a + strCount p b :=
  strCount_append_aux p hp a.length a b (Nat.le_refl _) hcond

theorem strCount_self (p : PyString) (hp : p ≠ []) : strCount p p = 1 := by
  obtain ⟨e, p', rfl⟩ : ∃ e p', p = e :: p' := by
    cases p with
    | nil => exact absurd rfl hp
    | cons e p' => exact ⟨e, p', rfl⟩
  rw [strCount_cons_pos _ e p' ((isPrefixL_iff _ _).mpr ⟨[], by simp⟩) hp]
  rw [List.drop_length, strCount_nil]

/-! ### The shape of decimal integer strings -/

theorem mem_of_elem {l : PyString} {n : Nat} {c : Char} (h : l[n]? = some c) : c ∈ l :=
  List.get?_mem (by rw [List.get?_eq_getElem?]; exact h)

/-- The shape shared by all outputs of `pyStr`: an optional leading minus
sign followed by a nonempty run of decimal digit characters. -/
def IntLike (d : PyString) : Prop :=
  ∃ ds : PyString, ds ≠ [] ∧ (∀ c ∈ ds, c.isDigit = true) ∧ (d = ds ∨ d = '-' :: ds)

theorem IntLike.ne_nil {d : PyString} (h : IntLike d) : d ≠ [] := by
  obtain ⟨ds, hne, -, hd | hd⟩ := h <;> subst hd
  · exact hne
  · exact List.cons_ne_nil _ _

theorem IntLike.length_pos {d : PyString} (h : IntLike d) : 0 < d.length :=
  List.length_pos.mpr h.ne_nil

theorem IntLike.mem_dm {d : PyString} (h : IntLike d) {c : Char} (hc : c ∈ d) :
    c.isDigit = true ∨ c = '-' := by
  obtain ⟨ds, -, hdig, hd | hd⟩ := h <;> subst hd
  · exact Or.inl (hdig c hc)
  · rcases List.mem_cons.mp hc with hc | hc
    · exact Or.inr hc
    · exact Or.inl (hdig c hc)

theorem IntLike.get_dm {d : PyString} (h : IntLike d) {i : Nat} {c : Char}
    (hc : d[i]? = some c) : c.isDigit = true ∨ c = '-' :=
  h.mem_dm (mem_of_elem hc)

theorem IntLike.get_digit_of_pos {d : PyString} (h : IntLike d) {i : Nat} {c : Char}
    (hi : 1 ≤ i) (hc : d[i]? = some c) : c.isDigit = true := by
  obtain ⟨ds, -, hdig, hd | hd⟩ := h <;> subst hd
  · exact hdig c (mem_of_elem hc)
  · obtain ⟨j, rfl⟩ : ∃ j, i = j + 1 := ⟨i - 1, by omega⟩
    rw [List.getElem?_cons_succ] at hc
    exact hdig c (mem_of_elem hc)

theorem IntLike.has_digit {d : PyString} (h : IntLike d) :
    ∃ c ∈ d, c.isDigit = true := by
  obtain ⟨ds, hne, hdig, hsplit⟩ := h
  obtain ⟨e, ds', rfl⟩ : ∃ e ds', ds = e :: ds' := by
    cases ds with
    | nil => exact absurd rfl hne
    | cons e ds' => exact ⟨e, ds', rfl⟩
  rcases hsplit with rfl | rfl
  · exact ⟨e, List.mem_cons_self _ _, hdig e (List.mem_cons_self _ _)⟩
  · exact ⟨e, List.mem_cons_of_mem _ (List.mem_cons_self _ _),
      hdig e (List.mem_cons_self _ _)⟩

theorem digitChar_isDigit {m : Nat} (h : m < 10) : (digitChar m).isDigit = true := by
  interval_cases m <;> decide

theorem natDigits_ne_nil (m : Nat) : natDigits m ≠ [] := by
  rw [natDigits_eq]
  split
  · exact List.cons_ne_nil _ _
  · exact fun hc => absurd (List.append_eq_nil.mp hc).2 (List.cons_ne_nil _ _)

theorem natDigits_all_digit (m : Nat) : ∀ c ∈ natDigits m, c.isDigit = true := by
  induction m using Nat.strong_induction_on with
  | _ m ih =>
    rw [natDigits_eq]
    split
    · rename_i h
      intro c hc
      rw [List.mem_singleton] at hc
      subst hc
      exact digitChar_isDigit h
    · rename_i h
      intro c hc
      rcases List.mem_append.mp hc with hc | hc
      · exact ih (m / 10) (Nat.div_lt_self (by omega) (by omega)) c hc
      · rw [List.mem_singleton] at hc
        subst hc
        exact digitChar_isDigit (Nat.mod_lt _ (by omega))

theorem pyStr_intLike (n : Int) : IntLike (pyStr n) := by
  unfold pyStr
  split
  · exact ⟨natDigits n.natAbs, natDigits_ne_nil _, natDigits_all_digit _, Or.inr rfl⟩
  · exact ⟨natDigits n.toNat, natDigits_ne_nil _, natDigits_all_digit _, Or.inl rfl⟩

/-! ### Matches cannot cross the boundaries of a substituted site -/

/-- A prefix match of `p` at offset `i` of `s` pins down the characters of
`s` at positions `i + k` for `k < p.length`. -/
theorem match_char (p s : PyString) (i k : Nat)
    (h : isPrefixL p (s.drop i) = true) (hk : k < p.length) :
    s[i + k]? = p[k]? := by
  obtain ⟨t, ht⟩ := (isPrefixL_iff _ _).mp h
  rw [← List.getElem?_drop, ← ht, List.getElem?_append_left hk]

theorem intLike_noCross_lit (d a b : PyString) (hd : IntLike d)
    (hnd : ∀ c ∈ a, c.isDigit = false)
    (hlast : a[a.length - 1]? ≠ some '-') :
    ∀ i, i < a.length → isPrefixL d ((a ++ b).drop i) = true →
      i + d.length ≤ a.length := by
  intro i hi hm
  by_contra hgt
  push_neg at hgt
  rcases Nat.lt_or_ge (i + 1) a.length with h1 | h1
  · have h1d : 1 < d.length := by omega
    have hc := match_char d (a ++ b) i 1 hm h1d
    rw [List.getElem?_append_left h1] at hc
    rw [List.getElem?_eq_getElem h1d] at hc
    have hdig := hd.get_digit_of_pos (i := 1) (Nat.le_refl _) (List.getElem?_eq_getElem h1d)
    have hmem : d[1] ∈ a := mem_of_elem hc
    rw [hnd _ hmem] at hdig
    exact Bool.noConfusion hdig
  · have hi' : i = a.length - 1 := by omega
    have h0 : 0 < d.length := hd.length_pos
    have hc := match_char d (a ++ b) i 0 hm h0
    rw [Nat.add_zero, List.getElem?_append_left hi] at hc
    rw [List.getElem?_eq_getElem h0] at hc
    rcases hd.get_dm (List.getElem?_eq_getElem h0) with hdig | hdash
    · have hmem : d[0] ∈ a := mem_of_elem hc
      rw [hnd _ hmem] at hdig
      exact Bool.noConfusion hdig
    · rw [hdash] at hc
      rw [hi'] at hc
      exact hlast hc

theorem intLike_noCross_self (d S : PyString) (hd : IntLike d)
    (hS : ∀ c, S[0]? = some c → c.isDigit = false) :
    ∀ i, i < d.length → isPrefixL d ((d ++ S).drop i) = true →
      i + d.length ≤ d.length := by
  intro i hi hm
  rcases Nat.eq_zero_or_pos i with rfl | hpos
  · omega
  · exfalso
    have hk : d.length - i < d.length := by omega
    have hc := match_char d (d ++ S) i (d.length - i) hm hk
    have hik : i + (d.length - i) = d.length := by omega
    rw [hik, List.getElem?_append_right (Nat.le_refl _), Nat.sub_self] at hc
    rw [List.getElem?_eq_getElem hk] at hc
    have hdig := hd.get_digit_of_pos (i := d.length - i) (by omega)
      (List.getElem?_eq_getElem hk)
    rw [hS _ hc] at hdig
    exact Bool.noConfusion hdig

theorem patD_noCross_lit (a d b : PyString) (hd : IntLike d) :
    ∀ i, i < a.length → isPrefixL patD ((a ++ (d ++ b)).drop i) = true →
      i + patD.length ≤ a.length := by
  intro i hi hm
  by_contra hgt
  push_neg at hgt
  exfalso
  have hk1 : 1 ≤ a.length - i := by omega
  have hk2 : a.length - i < patD.length := by
    simp only [patD, List.length_cons, List.length_nil] at hgt ⊢
    omega
  have hc := match_char patD (a ++ (d ++ b)) i (a.length - i) hm hk2
  have hik : i + (a.length - i) = a.length := by omega
  rw [hik, List.getElem?_append_right (Nat.le_refl _), Nat.sub_self] at hc
  have h0d : 0 < d.length := hd.length_pos
  rw [List.getElem?_append_left h0d] at hc
  have hkk : a.length - i = 1 ∨ a.length - i = 2 := by
    simp only [patD, List.length_cons, List.length_nil] at hk2
    omega
  rcases hkk with hk | hk
  · rw [hk] at hc
    have hc' : d[0]? = some 'D' := by simpa [patD] using hc
    rcases hd.get_dm hc' with hdig | hdash
    · exact absurd hdig (by decide)
    · exact absurd hdash (by decide)
  · rw [hk] at hc
    have hc' : d[0]? = some '>' := by simpa [patD] using hc
    rcases hd.get_dm hc' with hdig | hdash
    · exact absurd hdig (by decide)
    · exact absurd hdash (by decide)

theorem patD_noCross_self (d S : PyString) (hd : IntLike d) :
    ∀ i, i < d.length → isPrefixL patD ((d ++ S).drop i) = true →
      i + patD.length ≤ d.length := by
  intro i hi hm
  exfalso
  have hc := match_char patD (d ++ S) i 0 hm (by simp [patD])
  rw [Nat.add_zero, List.getElem?_append_left hi] at hc
  simp only [patD, List.getElem?_cons_zero] at hc
  rcases hd.get_dm hc with hdig | hdash
  · exact absurd hdig (by decide)
  · exact absurd hdash (by decide)

/-! ### Occurrence counts inside the literal segments -/

theorem strCount_eq_zero_of_no_digit (d a : PyString) (hd : IntLike d)
    (ha : ∀ c ∈ a, c.isDigit = false) : strCount d a = 0 := by
  rw [strCount_eq_zero_iff d a hd.ne_nil]
  rintro ⟨pre, post, heq⟩
  obtain ⟨cdig, hcmem, hcdig⟩ := hd.has_digit
  have : cdig ∈ a := by
    rw [← heq]
    simp only [List.mem_append]
    exact Or.inl (Or.inr hcmem)
  rw [ha _ this] at hcdig
  exact Bool.noConfusion hcdig

/-- No character satisfying "digit or minus" is immediately followed by a
digit anywhere in `s`. -/
def noIntAdj : PyString → Bool
  | c0 :: c1 :: rest =>
    (!(c1.isDigit && (c0.isDigit || c0 == '-'))) && noIntAdj (c1 :: rest)
  | _ => true

theorem noIntAdj_spec : ∀ (s : PyString), noIntAdj s = true →
    ∀ (j : Nat) (c0 c1 : Char), s[j]? = some c0 → s[j + 1]? = some c1 →
      c1.isDigit = true → ¬(c0.isDigit = true ∨ c0 = '-')
  | [], _, j, c0, c1, h0, _, _ => by simp at h0
  | [c], _, j, c0, c1, h0, h1, _ => by
    match j with
    | 0 => simp at h1
    | j + 1 => simp at h0
  | a :: b :: rest, h, j, c0, c1, h0, h1, hd => by
    have hh : (!(b.isDigit && (a.isDigit || a == '-'))) = true ∧
        noIntAdj (b :: rest) = true := by
      rw [← Bool.and_eq_true]
      exact h
    match j with
    | 0 =>
      rw [List.getElem?_cons_zero] at h0
      rw [List.getElem?_cons_succ, List.getElem?_cons_zero] at h1
      injection h0 with h0
      injection h1 with h1
      subst h0
      subst h1
      intro hor
      rw [hd] at hh
      rcases hor with hdig | hdash
      · rw [hdig] at hh
        simp at hh
      · subst hdash
        simp at hh
    | j + 1 =>
      rw [List.getElem?_cons_succ] at h0 h1
      exact noIntAdj_spec (b :: rest) hh.2 j c0 c1 h0 h1 hd

/-- A decimal string of length at least two never occurs in a string with
no adjacent (digit-or-minus, digit) character pair. -/
theorem strCount_eq_zero_of_noIntAdj (d s : PyString) (hd : IntLike d)
    (h2 : 2 ≤ d.length) (hs : noIntAdj s = true) : strCount d s = 0 := by
  rw [strCount_eq_zero_iff d s hd.ne_nil]
  rintro ⟨pre, post, heq⟩
  have hget : ∀ k, k < d.length → s[pre.length + k]? = d[k]? := by
    intro k hk
    rw [← heq, List.append_assoc]
    rw [List.getElem?_append_right (Nat.le_add_right _ _), Nat.add_sub_cancel_left]
    exact List.getElem?_append_left hk
  have h0 := hget 0 (by omega)
  have h1 := hget 1 (by omega)
  rw [List.getElem?_eq_getElem (show 0 < d.length by omega)] at h0
  rw [List.getElem?_eq_getElem (show 1 < d.length by omega)] at h1
  have hdig1 : d[1].isDigit = true :=
    hd.get_digit_of_pos (Nat.le_refl _) (List.getElem?_eq_getElem _)
  have hdm0 : d[0].isDigit = true ∨ d[0] = '-' :=
    hd.get_dm (List.getElem?_eq_getElem _)
  exact noIntAdj_spec s hs pre.length d[0] d[1] h0 (by rw [← h1]) hdig1 hdm0

/-! ### Counting over the interpolated template -/

theorem strCount_lit_step (d x X : PyString) (hd : IntLike d)
    (hx : ∀ c ∈ x, c.isDigit = false) (hlast : x[x.length - 1]? ≠ some '-') :
    strCount d (x ++ X) = strCount d X := by
  rw [strCount_append d hd.ne_nil x X (intLike_noCross_lit d x X hd hx hlast)]
  rw [strCount_eq_zero_of_no_digit d x hd hx, Nat.zero_add]

theorem strCount_d_step (d S : PyString) (hd : IntLike d)
    (hS : ∀ c, S[0]? = some c → c.isDigit = false) :
    strCount d (d ++ S) = 1 + strCount d S := by
  rw [strCount_append d hd.ne_nil d S (intLike_noCross_self d S hd hS)]
  rw [strCount_self d hd.ne_nil]

theorem segHeadFree (x X : PyString) (c0 : Char) (hlen : 0 < x.length)
    (hx : x[0]? = some c0) (hc0 : c0.isDigit = false) :
    ∀ c, (x ++ X)[0]? = some c → c.isDigit = false := by
  intro c h
  rw [List.getElem?_append_left hlen, hx] at h
  injection h with h
  subst h
  exact hc0

theorem headOfEq_digitFree (x : PyString) (c0 : Char) (hx : x[0]? = some c0)
    (hc0 : c0.isDigit = false) : ∀ c, x[0]? = some c → c.isDigit = false := by
  intro c h
  rw [hx] at h
  injection h with h
  subst h
  exact hc0

theorem strCount_interpolate (d : PyString) (hd : IntLike d) :
    strCount d (interpolate d) = 6 + strCount d seg6 := by
  unfold interpolate
  rw [strCount_lit_step d seg0 _ hd (by decide) (by decide)]
  rw [strCount_d_step d _ hd (segHeadFree seg1 _ '.' (by decide) (by decide) (by decide))]
  rw [strCount_lit_step d seg1 _ hd (by decide) (by decide)]
  rw [strCount_d_step d _ hd (segHeadFree seg2 _ '.' (by decide) (by decide) (by decide))]
  rw [strCount_lit_step d seg2 _ hd (by decide) (by decide)]
  rw [strCount_d_step d _ hd (segHeadFree seg3 _ ' ' (by decide) (by decide) (by decide))]
  rw [strCount_lit_step d seg3 _ hd (by decide) (by decide)]
  rw [strCount_d_step d _ hd (segHeadFree seg4 _ ' ' (by decide) (by decide) (by decide))]
  rw [strCount_lit_step d seg4 _ hd (by decide) (by decide)]
  rw [strCount_d_step d _ hd (segHeadFree seg5 _ ' ' (by decide) (by decide) (by decide))]
  rw [strCount_lit_step d seg5 _ hd (by decide) (by decide)]
  rw [strCount_d_step d seg6 hd (headOfEq_digitFree seg6 ' ' (by decide) (by decide))]
  omega

theorem patD_ne_nil : patD ≠ [] := by decide

theorem strCount_patD_in_d (d : PyString) (hd : IntLike d) : strCount patD d = 0 := by
  rw [strCount_eq_zero_iff patD d patD_ne_nil]
  rintro ⟨pre, post, heq⟩
  have : '<' ∈ d := by
    rw [← heq]
    simp [patD]
  rcases hd.mem_dm this with hdig | hdash
  · exact absurd hdig (by decide)
  · exact absurd hdash (by decide)

theorem strCount_patD_lit_step (a d b : PyString) (hd : IntLike d)
    (ha : strCount patD a = 0) :
    strCount patD (a ++ (d ++ b)) = strCount patD (d ++ b) := by
  rw [strCount_append patD patD_ne_nil a (d ++ b) (patD_noCross_lit a d b hd), ha,
    Nat.zero_add]

theorem strCount_patD_d_step (d S : PyString) (hd : IntLike d) :
    strCount patD (d ++ S) = strCount patD S := by
  rw [strCount_append patD patD_ne_nil d S (patD_noCross_self d S hd)]
  rw [strCount_patD_in_d d hd, Nat.zero_add]

theorem strCount_patD_interpolate (d : PyString) (hd : IntLike d) :
    strCount patD (interpolate d) = 0 := by
  unfold interpolate
  rw [strCount_patD_lit_step seg0 d _ hd (by decide)]
  rw [strCount_patD_d_step d _ hd]
  rw [strCount_patD_lit_step seg1 d _ hd (by decide)]
  rw [strCount_patD_d_step d _ hd]
  rw [strCount_patD_lit_step seg2 d _ hd (by decide)]
  rw [strCount_patD_d_step d _ hd]
  rw [strCount_patD_lit_step seg3 d _ hd (by decide)]
  rw [strCount_patD_d_step d _ hd]
  rw [strCount_patD_lit_step seg4 d _ hd (by decide)]
  rw [strCount_patD_d_step d _ hd]
  rw [strCount_patD_lit_step seg5 d _ hd (by decide)]
  rw [strCount_patD_d_step d _ hd]
  decide

/-! ### Rendering: replacement interpolates the template segments -/

theorem noOcc_of_count_zero (p s : PyString) (hp : p ≠ []) (h : strCount p s = 0) :
    ¬ HasOcc p s := (strCount_eq_zero_iff p s hp).mp h

theorem strReplace_of_no_occ (p r : PyString) :
    ∀ (s : PyString), ¬ HasOcc p s → strReplace p r s = s
  | [], _ => strReplace_nil p r
  | c :: rest, h => by
    by_cases hp : p = []
    · exact absurd ⟨[], c :: rest, by simp [hp]⟩ h
    · have hm : ¬(isPrefixL p (c :: rest) = true ∧ p ≠ []) := by
        rintro ⟨h1, -⟩
        obtain ⟨t, ht⟩ := (isPrefixL_iff p _).mp h1
        exact h ⟨[], t, by simpa using ht⟩
      have hrec := strReplace_of_no_occ p r rest (fun hor => by
        obtain ⟨pre, post, hh⟩ := hor
        exact h ⟨c :: pre, post, by
          simp only [List.cons_append, List.append_assoc] at hh ⊢
          rw [hh]⟩)
      rw [strReplace_cons_neg p r c rest hm, hrec]

theorem strReplace_step (p r : PyString) (hp : p ≠ []) :
    ∀ (a S : PyString), ¬ HasOcc p (a ++ p.dropLast) →
      strReplace p r (a ++ (p ++ S)) = a ++ (r ++ strReplace p r S)
  | [], S, _ => by
    obtain ⟨e, p', rfl⟩ : ∃ e p', p = e :: p' := by
      cases p with
      | nil => exact absurd rfl hp
      | cons e p' => exact ⟨e, p', rfl⟩
    rw [List.nil_append, List.nil_append]
    rw [show (e :: p') ++ S = e :: (p' ++ S) from rfl]
    rw [strReplace_cons_pos _ r e (p' ++ S) ((isPrefixL_iff _ _).mpr ⟨S, rfl⟩) hp]
    rw [show e :: (p' ++ S) = (e :: p') ++ S from rfl, List.drop_left]
  | c :: a', S, h => by
    have hnm : ¬(isPrefixL p ((c :: a') ++ (p ++ S)) = true ∧ p ≠ []) := by
      rintro ⟨h1, -⟩
      have hpre : p <+: ((c :: a') ++ (p ++ S)) := (isPrefixL_iff _ _).mp h1
      have hlastp := List.dropLast_append_getLast hp
      have hsplit : (c :: a') ++ (p ++ S) =
          ((c :: a') ++ p.dropLast) ++ ([p.getLast hp] ++ S) := by
        conv_rhs => rw [List.append_assoc]
        rw [← List.append_assoc p.dropLast, hlastp]
      have hlen : p.length ≤ ((c :: a') ++ p.dropLast).length := by
        simp only [List.length_append, List.length_cons, List.length_dropLast]
        have := List.length_pos.mpr hp
        omega
      have hpre2 : p <+: ((c :: a') ++ p.dropLast) := by
        rw [hsplit] at hpre
        exact List.prefix_of_prefix_length_le hpre (List.prefix_append _ _) hlen
      obtain ⟨t, ht⟩ := hpre2
      exact h ⟨[], t, by simpa using ht⟩
    have hrec := strReplace_step p r hp a' S (fun hor => by
      obtain ⟨pre, post, hh⟩ := hor
      exact h ⟨c :: pre, post, by
        simp only [List.cons_append, List.append_assoc] at hh ⊢
        rw [hh]⟩)
    rw [show (c :: a') ++ (p ++ S) = c :: (a' ++ (p ++ S)) from rfl]
    rw [strReplace_cons_neg p r c (a' ++ (p ++ S)) (by exact hnm)]
    rw [hrec]
    rfl

theorem template_eq : template = interpolate patD := by decide

theorem strReplace_template (d : PyString) : strReplace patD d template = interpolate d := by
  rw [template_eq]
  unfold interpolate
  rw [strReplace_step patD d patD_ne_nil seg0 _
    (noOcc_of_count_zero patD _ patD_ne_nil (by decide))]
  rw [strReplace_step patD d patD_ne_nil seg1 _
    (noOcc_of_count_zero patD _ patD_ne_nil (by decide))]
  rw [strReplace_step patD d patD_ne_nil seg2 _
    (noOcc_of_count_zero patD _ patD_ne_nil (by decide))]
  rw [strReplace_step patD d patD_ne_nil seg3 _
    (noOcc_of_count_zero patD _ patD_ne_nil (by decide))]
  rw [strReplace_step patD d patD_ne_nil seg4 _
    (noOcc_of_count_zero patD _ patD_ne_nil (by decide))]
  rw [strReplace_step patD d patD_ne_nil seg5 _
    (noOcc_of_count_zero patD _ patD_ne_nil (by decide))]
  rw [strReplace_of_no_occ patD d seg6
    (noOcc_of_count_zero patD _ patD_ne_nil (by decide))]

theorem rendered_eq (n : Int) : rendered n = interpolate (pyStr n) :=
  strReplace_template (pyStr n)

/-! ### The exact occurrence counts in the rendered output -/

theorem natDigits_len2 (m : Nat) (h : 10 ≤ m) : 2 ≤ (natDigits m).length := by
  rw [natDigits_eq, if_neg (by omega), List.length_append]
  have := List.length_pos.mpr (natDigits_ne_nil (m / 10))
  simp only [List.length_cons, List.length_nil]
  omega

theorem pyStr_single (n : Int) (h1 : 0 ≤ n) (h2 : n < 10) :
    pyStr n = [digitChar n.toNat] := by
  unfold pyStr
  rw [if_neg (by omega), natDigits_eq, if_pos (by omega)]

theorem pyStr_len2_of_neg (n : Int) (h : n < 0) : 2 ≤ (pyStr n).length := by
  unfold pyStr
  rw [if_pos h]
  simp only [List.length_cons]
  have := List.length_pos.mpr (natDigits_ne_nil n.natAbs)
  omega

theorem strCount_seg6_small :
    ∀ (k : Nat), k < 10 → strCount [digitChar k] seg6 = (if k = 1 ∨ k = 2 then 1 else 0) := by
  decide

theorem strCount_pyStr_seg6 (n : Int) :
    strCount (pyStr n) seg6 = if n = 1 ∨ n = 2 then 1 else 0 := by
  by_cases h0 : 0 ≤ n ∧ n < 10
  · rw [pyStr_single n h0.1 h0.2, strCount_seg6_small n.toNat (by omega)]
    have hiff : (n.toNat = 1 ∨ n.toNat = 2) ↔ (n = 1 ∨ n = 2) := by omega
    simp only [hiff]
  · have h2 : 2 ≤ (pyStr n).length := by
      by_cases hneg : n < 0
      · exact pyStr_len2_of_neg n hneg
      · unfold pyStr
        rw [if_neg hneg]
        exact natDigits_len2 n.toNat (by omega)
    rw [strCount_eq_zero_of_noIntAdj (pyStr n) seg6 (pyStr_intLike n) h2 (by decide)]
    rw [if_neg (by omega)]

theorem strCount_pyStr_rendered (n : Int) :
    strCount (pyStr n) (rendered n) = 6 + (if n = 1 ∨ n = 2 then 1 else 0) := by
  rw [rendered_eq, strCount_interpolate (pyStr n) (pyStr_intLike n), strCount_pyStr_seg6]

theorem strCount_patD_rendered (n : Int) : strCount patD (rendered n) = 0 := by
  rw [rendered_eq]
  exact strCount_patD_interpolate (pyStr n) (pyStr_intLike n)

/-! ### Injectivity of the decimal rendering -/

/-- Value of a most-significant-first decimal digit string (left inverse
of `natDigits`). -/
def digitsToNat (ds : PyString) : Nat :=
  ds.foldl (fun a c => 10 * a + (c.toNat - 48)) 0

theorem digitChar_toNat (m : Nat) (h : m < 10) : (digitChar m).toNat = 48 + m := by
  interval_cases m <;> decide

theorem digitsToNat_append_digit (xs : PyString) (c : Char) :
    digitsToNat (xs ++ [c]) = 10 * digitsToNat xs + (c.toNat - 48) := by
  unfold digitsToNat
  rw [List.foldl_append]
  rfl

theorem digitsToNat_natDigits (m : Nat) : digitsToNat (natDigits m) = m := by
  induction m using Nat.strong_induction_on with
  | _ m ih =>
    rw [natDigits_eq]
    by_cases h10 : m < 10
    · rw [if_pos h10]
      have htn := digitChar_toNat m h10
      show 10 * 0 + ((digitChar m).toNat - 48) = m
      omega
    · rw [if_neg h10, digitsToNat_append_digit]
      rw [ih (m / 10) (Nat.div_lt_self (by omega) (by omega))]
      rw [digitChar_toNat (m % 10) (Nat.mod_lt _ (by omega))]
      omega

theorem natDigits_inj {m1 m2 : Nat} (h : natDigits m1 = natDigits m2) : m1 = m2 := by
  rw [← digitsToNat_natDigits m1, ← digitsToNat_natDigits m2, h]

theorem dash_not_mem_natDigits (m : Nat) : '-' ∉ natDigits m := by
  intro hmem
  exact absurd (natDigits_all_digit m '-' hmem) (by decide)

theorem pyStr_inj {m n : Int} (h : pyStr m = pyStr n) : m = n := by
  unfold pyStr at h
  by_cases hm : m < 0 <;> by_cases hn : n < 0
  · rw [if_pos hm, if_pos hn] at h
    injection h with h1 h2
    have := natDigits_inj h2
    omega
  · rw [if_pos hm, if_neg hn] at h
    exfalso
    have : '-' ∈ natDigits n.toNat := by
      rw [← h]
      exact List.mem_cons_self _ _
    exact dash_not_mem_natDigits _ this
  · rw [if_neg hm, if_pos hn] at h
    exfalso
    have : '-' ∈ natDigits m.toNat := by
      rw [h]
      exact List.mem_cons_self _ _
    exact dash_not_mem_natDigits _ this
  · rw [if_neg hm, if_neg hn] at h
    have := natDigits_inj h
    omega

/-! ### The derived output path -/

theorem pathJoin_not_abs (a b : PyString) (hb : b.head? ≠ some '/')
    (ha1 : a ≠ []) (ha2 : a.getLast? ≠ some '/') :
    pathJoin a b = a ++ '/' :: b := by
  unfold pathJoin
  rw [if_neg hb, if_neg (fun h => h.elim ha1 ha2)]

theorem getLast?_append_cons_ne (sd x : PyString) (c0 : Char)
    (hx : x.getLast? = some c0) (hne : c0 ≠ '/') :
    (sd ++ x).getLast? ≠ some '/' := by
  rw [List.getLast?_append, hx]
  intro hcontra
  have hc : some c0 = some '/' := hcontra
  injection hc with hc
  exact hne hc

theorem dayFileName_head (n : Int) : (dayFileName n).head? = some 'd' := rfl

theorem outputPath_eq (sd : PyString) (n : Int) (h1 : sd ≠ []) (h2 : sd.getLast? ≠ some '/') :
    outputPath sd n =
      sd ++ ("/src/puzzle/day" : String).data ++ pyStr n ++ (".rs" : String).data := by
  unfold outputPath puzzleDirOf
  have e1 : pathJoin sd srcDirName = sd ++ '/' :: srcDirName :=
    pathJoin_not_abs _ _ (by decide) h1 h2
  have hne1 : sd ++ '/' :: srcDirName ≠ [] := by simp
  have hlast1 : (sd ++ '/' :: srcDirName).getLast? ≠ some '/' :=
    getLast?_append_cons_ne sd _ 'c' (by decide) (by decide)
  have e2 : pathJoin (sd ++ '/' :: srcDirName) puzzleDirName =
      (sd ++ '/' :: srcDirName) ++ '/' :: puzzleDirName :=
    pathJoin_not_abs _ _ (by decide) hne1 hlast1
  have hne2 : (sd ++ '/' :: srcDirName) ++ '/' :: puzzleDirName ≠ [] := by simp
  have hlast2 : ((sd ++ '/' :: srcDirName) ++ '/' :: puzzleDirName).getLast? ≠ some '/' :=
    getLast?_append_cons_ne _ _ 'e' (by decide) (by decide)
  have e3 : pathJoin ((sd ++ '/' :: srcDirName) ++ '/' :: puzzleDirName) (dayFileName n) =
      ((sd ++ '/' :: srcDirName) ++ '/' :: puzzleDirName) ++ '/' :: dayFileName n :=
    pathJoin_not_abs _ _ (by rw [dayFileName_head]; decide) hne2 hlast2
  rw [e1, e2, e3]
  simp only [dayFileName, List.append_assoc]
  rfl

theorem dayFileName_inj {m n : Int} (h : dayFileName m = dayFileName n) : m = n := by
  unfold dayFileName at h
  exact pyStr_inj (List.append_cancel_left (List.append_cancel_right h))

theorem pathJoin_same_base_inj (A b1 b2 : PyString) (hb1 : b1.head? ≠ some '/')
    (hb2 : b2.head? ≠ some '/') (h : pathJoin A b1 = pathJoin A b2) : b1 = b2 := by
  unfold pathJoin at h
  rw [if_neg hb1, if_neg hb2] at h
  by_cases hA : A = [] ∨ A.getLast? = some '/'
  · rw [if_pos hA, if_pos hA] at h
    exact List.append_cancel_left h
  · rw [if_neg hA, if_neg hA] at h
    have h2 := List.append_cancel_left h
    simpa using h2

theorem outputPath_inj_iff (sd : PyString) (m n : Int) :
    outputPath sd m = outputPath sd n ↔ m = n := by
  constructor
  · intro h
    exact dayFileName_inj (pathJoin_same_base_inj _ _ _
      (by rw [dayFileName_head]; decide) (by rw [dayFileName_head]; decide) h)
  · rintro rfl
    rfl

/-! ### Line counting of the diagnostic messages -/

theorem strCount_single_append (c : Char) (a b : PyString) :
    strCount [c] (a ++ b) = strCount [c] a + strCount [c] b :=
  strCount_append [c] (by simp) a b (fun i hi _ => by
    simp only [List.length_cons, List.length_nil]
    omega)

theorem strCount_single_eq_zero (c : Char) (s : PyString) (h : c ∉ s) :
    strCount [c] s = 0 := by
  rw [strCount_eq_zero_iff _ _ (by simp)]
  rintro ⟨pre, post, heq⟩
  refine h ?_
  rw [← heq]
  simp

theorem hexDigit_ne_newline (d : Nat) (hd : d < 16) : hexDigit d ≠ '\n' := by
  have hall : ∀ k, k < 16 → hexDigit k ≠ '\n' := by decide
  exact hall d hd

theorem newline_not_mem_pyReprChar (q c : Char) (hq : q ≠ '\n') :
    '\n' ∉ pyReprChar q c := by
  unfold pyReprChar
  split_ifs with h1 h2 h3 h4 h5 h6
  · decide
  · intro hmem
    simp only [List.mem_cons, List.not_mem_nil, or_false] at hmem
    rcases hmem with h | h
    · exact absurd h (by decide)
    · exact hq h.symm
  · decide
  · decide
  · decide
  · intro hmem
    have hb : c.toNat / 16 < 16 ∧ c.toNat % 16 < 16 := by
      simp only [Bool.or_eq_true, decide_eq_true_eq, beq_iff_eq] at h6
      refine ⟨?_, Nat.mod_lt _ (by omega)⟩
      rcases h6 with h | h <;> omega
    simp only [List.mem_cons, List.not_mem_nil, or_false] at hmem
    rcases hmem with h | h | h | h
    · exact absurd h (by decide)
    · exact absurd h (by decide)
    · exact hexDigit_ne_newline _ hb.1 h.symm
    · exact hexDigit_ne_newline _ hb.2 h.symm
  · intro hmem
    simp only [List.mem_singleton] at hmem
    subst hmem
    exact h3 (by decide)

theorem newline_not_mem_pyRepr (s : PyString) : '\n' ∉ pyRepr s := by
  unfold pyRepr
  intro hmem
  have hq : (if s.contains squote && !(s.contains dquote) then dquote else squote) ≠ '\n' := by
    split_ifs <;> decide
  rcases List.mem_cons.mp hmem with h | h
  · exact hq h.symm
  · rcases List.mem_append.mp h with h | h
    · obtain ⟨chunk, hchunk, hmemc⟩ := List.mem_flatten.mp h
      obtain ⟨c, -, rfl⟩ := List.mem_map.mp hchunk
      exact newline_not_mem_pyReprChar _ c hq hmemc
    · simp only [List.mem_singleton] at h
      exact hq h.symm

theorem strCount_newline_missingArgMsg : strCount ['\n'] missingArgMsg = 1 := by decide

theorem strCount_newline_invalidArgMsg (s : PyString) :
    strCount ['\n'] (invalidArgMsg s) = 1 := by
  unfold invalidArgMsg
  rw [strCount_single_append, strCount_single_append]
  rw [strCount_single_eq_zero '\n' (pyRepr s) (newline_not_mem_pyRepr s)]
  rw [show strCount ['\n'] (("error: invalid argument DAY: " : String).data) = 0 from by decide]
  rw [strCount_self ['\n'] (by simp)]

theorem strCount_newline_traceback (path : PyString) :
    strCount ['\n'] (tracebackText path) = 4 := by
  unfold tracebackText
  rw [strCount_single_append, strCount_single_append]
  rw [strCount_single_eq_zero '\n' (pyRepr path) (newline_not_mem_pyRepr path)]
  rw [strCount_self ['\n'] (by simp)]
  norm_num
  decide

/-! ### Case analysis of the main block -/

theorem runMain_missing (sd : PyString) (argv : List PyString) (fs : Bool)
    (h : argv.length < 2) : runMain sd argv fs = ⟨1, missingArgMsg, none⟩ := by
  match argv with
  | [] => rfl
  | [p] => rfl
  | p :: s :: rest =>
    exfalso
    simp only [List.length_cons] at h
    omega

theorem runMain_invalid (sd p s : PyString) (rest : List PyString) (fs : Bool)
    (h : pyInt s = none) : runMain sd (p :: s :: rest) fs = ⟨1, invalidArgMsg s, none⟩ := by
  simp only [runMain]
  rw [h]

theorem runMain_valid (sd p s : PyString) (rest : List PyString) (fs : Bool) (n : Int)
    (h : pyInt s = some n) :
    runMain sd (p :: s :: rest) fs =
      if fs then ⟨0, [], some (outputPath sd n, rendered n)⟩
      else ⟨1, tracebackText (outputPath sd n), none⟩ := by
  simp only [runMain]
  rw [h]

/-! ### The claims -/

/-- C1: for every parsed integer `n`, the rendered output text equals the
fixed embedded template with every occurrence of the placeholder `'<D>'`
replaced by the decimal string form of `n` (the same value at all sites)
and no other part altered: the template is exactly the interpolation of
its placeholder-free literal segments with `'<D>'`, and the rendered text
(also as written by a successful run) is the interpolation of those same
segments with `str(n)`. -/
theorem claim_C1 :
    template = interpolate patD ∧
    (∀ s ∈ [seg0, seg1, seg2, seg3, seg4, seg5, seg6], ¬ HasOcc patD s) ∧
    (∀ n : Int, rendered n = interpolate (pyStr n)) ∧
    (∀ (sd p s : PyString) (rest : List PyString) (n : Int), pyInt s = some n →
      (runMain sd (p :: s :: rest) true).fileWritten =
        some (outputPath sd n, interpolate (pyStr n))) := by
  refine ⟨template_eq, ?_, rendered_eq, ?_⟩
  · intro s hs
    simp only [List.mem_cons, List.not_mem_nil, or_false] at hs
    rcases hs with rfl | rfl | rfl | rfl | rfl | rfl | rfl <;>
      exact noOcc_of_count_zero patD _ patD_ne_nil (by decide)
  · intro sd p s rest n h
    rw [runMain_valid sd p s rest true n h, if_pos rfl]
    show some (outputPath sd n, rendered n) = _
    rw [rendered_eq]

/-- Witness for C1 at a concrete invocation with day 5. -/
theorem claim_C1_witness :
    (¬ HasOcc patD seg0) ∧
    (runMain ("/aoc2020" : String).data
        [("./new_puzzle.py" : String).data, ("5" : String).data] true).fileWritten =
      some (outputPath ("/aoc2020" : String).data 5, interpolate (pyStr 5)) :=
  ⟨claim_C1.2.1 seg0 (by simp), claim_C1.2.2.2 _ _ _ _ 5 (by decide)⟩

/-- C2 counterexample: the claim asserts `str(n)` occurs exactly five
times (header comment, resource path, type name twice, constructor); at
`n = 3` the rendered output in fact contains `str(3)` six times, because
the type name site occurs three times (struct declaration and two impl
headers). -/
theorem claim_C2_counterexample :
    strCount (pyStr 3) (rendered 3) = 6 ∧ ¬ strCount (pyStr 3) (rendered 3) = 5 := by
  constructor <;> decide

/-- C2 (amended): for every integer `n` the rendered output contains zero
occurrences of `'<D>'` and is the interpolation of the template's literal
segments with `str(n)` at six substitution sites (header comment, resource
path, type name three times, constructor reference); the total number of
occurrences of `str(n)` is exactly six, plus one more exactly when
`str(n)` already occurs in the template's fixed text (`n = 1` or `n = 2`,
from `part1`/`part2`). -/
theorem claim_C2_amended :
    (∀ n : Int, strCount patD (rendered n) = 0) ∧
    (∀ n : Int, rendered n = interpolate (pyStr n)) ∧
    (∀ n : Int, strCount (pyStr n) (rendered n) = 6 + (if n = 1 ∨ n = 2 then 1 else 0)) :=
  ⟨strCount_patD_rendered, rendered_eq, strCount_pyStr_rendered⟩

/-- C3: for a script directory that is nonempty and does not end in a
separator (as `os.path.dirname(os.path.abspath(__file__))` is, except at
the filesystem root), the output path equals exactly
`<script-dir>/src/puzzle/day{n}.rs`, and a successful run writes to that
path. -/
theorem claim_C3 :
    ∀ (sd : PyString) (n : Int), sd ≠ [] → sd.getLast? ≠ some '/' →
      outputPath sd n =
        sd ++ ("/src/puzzle/day" : String).data ++ pyStr n ++ (".rs" : String).data ∧
      ∀ (p s : PyString) (rest : List PyString), pyInt s = some n →
        (runMain sd (p :: s :: rest) true).fileWritten =
          some (sd ++ ("/src/puzzle/day" : String).data ++ pyStr n ++ (".rs" : String).data,
            rendered n) := by
  intro sd n h1 h2
  refine ⟨outputPath_eq sd n h1 h2, ?_⟩
  intro p s rest hps
  rw [runMain_valid sd p s rest true n hps, if_pos rfl]
  show some (outputPath sd n, rendered n) = _
  rw [outputPath_eq sd n h1 h2]

/-- Witness for C3 at a concrete script directory and day 7. -/
theorem claim_C3_witness :
    outputPath ("/home/ian/aoc2020" : String).data 7 =
      ("/home/ian/aoc2020" : String).data ++ ("/src/puzzle/day" : String).data ++
        pyStr 7 ++ (".rs" : String).data ∧
    (runMain ("/home/ian/aoc2020" : String).data
        [("./new_puzzle.py" : String).data, ("7" : String).data] true).fileWritten =
      some (("/home/ian/aoc2020" : String).data ++ ("/src/puzzle/day" : String).data ++
        pyStr 7 ++ (".rs" : String).data, rendered 7) := by
  have h := claim_C3 ("/home/ian/aoc2020" : String).data 7 (by decide) (by decide)
  exact ⟨h.1, h.2 _ _ _ (by decide)⟩

/-- C4: the output path is a pure, deterministic function of the parsed
integer identifier: over a fixed script directory, two identifiers derive
the same path exactly when they are equal. -/
theorem claim_C4 :
    ∀ (sd : PyString) (m n : Int), (outputPath sd m = outputPath sd n ↔ m = n) :=
  outputPath_inj_iff

/-- C5: with a valid integer argument string (and the target directory
present), the run exits with status zero and writes the file at the
derived path; the argument is parsed by standard integer-string
conversion, so `"007"` parses to `7` and `"-3"` to `-3`. -/
theorem claim_C5 :
    (∀ (sd p s : PyString) (rest : List PyString) (n : Int), pyInt s = some n →
      runMain sd (p :: s :: rest) true =
        ⟨0, [], some (outputPath sd n, rendered n)⟩) ∧
    pyInt ("7" : String).data = some 7 ∧
    pyInt ("007" : String).data = some 7 ∧
    pyInt ("-3" : String).data = some (-3) := by
  refine ⟨?_, by decide, by decide, by decide⟩
  intro sd p s rest n h
  rw [runMain_valid sd p s rest true n h, if_pos rfl]

/-- Witness for C5 at the argument string `"007"`. -/
theorem claim_C5_witness :
    runMain ("/aoc2020" : String).data
        [("./new_puzzle.py" : String).data, ("007" : String).data] true =
      ⟨0, [], some (outputPath ("/aoc2020" : String).data 7, rendered 7)⟩ :=
  claim_C5.1 _ _ _ _ 7 (by decide)

/-- C6: invoked with no argument (`sys.argv` shorter than two entries),
the program terminates with exit status 1 (non-zero), prints the usage
diagnostic `"error: missing argument DAY"`, and writes no file. -/
theorem claim_C6 :
    ∀ (sd : PyString) (argv : List PyString) (fs : Bool), argv.length < 2 →
      (runMain sd argv fs).exitCode = 1 ∧
      (runMain sd argv fs).stderrText = ("error: missing argument DAY\n" : String).data ∧
      (runMain sd argv fs).fileWritten = none := by
  intro sd argv fs h
  rw [runMain_missing sd argv fs h]
  exact ⟨rfl, rfl, rfl⟩

/-- Witness for C6 at a concrete argument-less invocation. -/
theorem claim_C6_witness :
    (runMain ("/aoc2020" : String).data [("./new_puzzle.py" : String).data] true).exitCode = 1 ∧
    (runMain ("/aoc2020" : String).data [("./new_puzzle.py" : String).data] true).stderrText =
      ("error: missing argument DAY\n" : String).data ∧
    (runMain ("/aoc2020" : String).data [("./new_puzzle.py" : String).data] true).fileWritten =
      none :=
  claim_C6 _ _ _ (by decide)

/-- C7: invoked with a non-integer-convertible argument, the program
terminates with exit status 1 (non-zero), prints the diagnostic
`"error: invalid argument DAY: "` followed by the `repr` of the offending
value (which, for `"abc"`, contains the value itself), and writes no
file. -/
theorem claim_C7 :
    (∀ (sd p s : PyString) (rest : List PyString) (fs : Bool), pyInt s = none →
      (runMain sd (p :: s :: rest) fs).exitCode = 1 ∧
      (runMain sd (p :: s :: rest) fs).stderrText =
        ("error: invalid argument DAY: " : String).data ++ pyRepr s ++ ['\n'] ∧
      (runMain sd (p :: s :: rest) fs).fileWritten = none) ∧
    pyInt ("abc" : String).data = none ∧
    strCount ("abc" : String).data (invalidArgMsg ("abc" : String).data) = 1 := by
  refine ⟨?_, by decide, by decide⟩
  intro sd p s rest fs h
  rw [runMain_invalid sd p s rest fs h]
  exact ⟨rfl, rfl, rfl⟩

/-- Witness for C7 at the argument string `"abc"`. -/
theorem claim_C7_witness :
    (runMain ("/aoc2020" : String).data
        [("./new_puzzle.py" : String).data, ("abc" : String).data] true).exitCode = 1 ∧
    (runMain ("/aoc2020" : String).data
        [("./new_puzzle.py" : String).data, ("abc" : String).data] true).stderrText =
      ("error: invalid argument DAY: " : String).data ++ pyRepr ("abc" : String).data ++ ['\n'] ∧
    (runMain ("/aoc2020" : String).data
        [("./new_puzzle.py" : String).data, ("abc" : String).data] true).fileWritten = none :=
  claim_C7.1 _ _ _ _ _ (by decide)

/-- C8 counterexample: with a valid argument but the target directory
missing, the invocation fails (exit 1, no file written) but its stderr
output is a four-line uncaught-exception traceback, not a one-line
diagnostic. -/
theorem claim_C8_counterexample :
    (runMain ("/aoc2020" : String).data
        [("./new_puzzle.py" : String).data, ("5" : String).data] false).exitCode = 1 ∧
    (runMain ("/aoc2020" : String).data
        [("./new_puzzle.py" : String).data, ("5" : String).data] false).fileWritten = none ∧
    strCount ['\n'] (runMain ("/aoc2020" : String).data
        [("./new_puzzle.py" : String).data, ("5" : String).data] false).stderrText = 4 ∧
    ¬ strCount ['\n'] (runMain ("/aoc2020" : String).data
        [("./new_puzzle.py" : String).data, ("5" : String).data] false).stderrText = 1 := by
  refine ⟨by decide, by decide, by decide, by decide⟩

/-- C8 (amended): every failure is terminal: each run either succeeds
(exit 0, silent, file written) or fails with exit status 1, no file
written, and a nonempty diagnostic on stderr — no retry, no partial
success, no error swallowed.  The two argument-validation failures print
a one-line diagnostic; an I/O failure from a missing target directory
surfaces as a multi-line (four-line) uncaught-exception traceback. -/
theorem claim_C8_amended :
    (∀ (sd : PyString) (argv : List PyString) (fs : Bool),
      ((runMain sd argv fs).exitCode = 0 ∧ (runMain sd argv fs).stderrText = [] ∧
        (runMain sd argv fs).fileWritten ≠ none) ∨
      ((runMain sd argv fs).exitCode = 1 ∧ (runMain sd argv fs).fileWritten = none ∧
        (runMain sd argv fs).stderrText ≠ [])) ∧
    (∀ (sd : PyString) (argv : List PyString) (fs : Bool), argv.length < 2 →
      strCount ['\n'] (runMain sd argv fs).stderrText = 1) ∧
    (∀ (sd p s : PyString) (rest : List PyString) (fs : Bool), pyInt s = none →
      strCount ['\n'] (runMain sd (p :: s :: rest) fs).stderrText = 1) ∧
    (∀ (sd p s : PyString) (rest : List PyString) (n : Int), pyInt s = some n →
      2 ≤ strCount ['\n'] (runMain sd (p :: s :: rest) false).stderrText) := by
  refine ⟨?_, ?_, ?_, ?_⟩
  · intro sd argv fs
    match argv with
    | [] =>
      right
      rw [runMain_missing _ _ _ (by simp)]
      exact ⟨rfl, rfl, by simp [missingArgMsg]⟩
    | [p] =>
      right
      rw [runMain_missing _ _ _ (by simp)]
      exact ⟨rfl, rfl, by simp [missingArgMsg]⟩
    | p :: s :: rest =>
      cases hps : pyInt s with
      | none =>
        right
        rw [runMain_invalid _ _ _ _ _ hps]
        exact ⟨rfl, rfl, by simp [invalidArgMsg]⟩
      | some n =>
        cases fs with
        | true =>
          left
          rw [runMain_valid _ _ _ _ _ _ hps, if_pos rfl]
          exact ⟨rfl, rfl, by simp⟩
        | false =>
          right
          rw [runMain_valid _ _ _ _ _ _ hps, if_neg (by simp)]
          exact ⟨rfl, rfl, by simp [tracebackText]⟩
  · intro sd argv fs h
    rw [runMain_missing sd argv fs h]
    exact strCount_newline_missingArgMsg
  · intro sd p s rest fs h
    rw [runMain_invalid sd p s rest fs h]
    exact strCount_newline_invalidArgMsg s
  · intro sd p s rest n h
    rw [runMain_valid sd p s rest false n h, if_neg (by simp)]
    show 2 ≤ strCount ['\n'] (tracebackText (outputPath sd n))
    rw [strCount_newline_traceback]
    omega

/-- Witness for the amended C8 at a concrete failing invocation. -/
theorem claim_C8_amended_witness :
    2 ≤ strCount ['\n'] (runMain ("/aoc2020" : String).data
      [("./new_puzzle.py" : String).data, ("5" : String).data] false).stderrText :=
  claim_C8_amended.2.2.2 _ _ _ _ 5 (by decide)

/-- C9: whenever the program terminates because the argument is missing
or not integer-convertible, its exit status is exactly 1, since
`sys.exit` with a string message exits with status 1. -/
theorem claim_C9 :
    (∀ (sd : PyString) (argv : List PyString) (fs : Bool), argv.length < 2 →
      (runMain sd argv fs).exitCode = 1) ∧
    (∀ (sd p s : PyString) (rest : List PyString) (fs : Bool), pyInt s = none →
      (runMain sd (p :: s :: rest) fs).exitCode = 1) := by
  constructor
  · intro sd argv fs h
    rw [runMain_missing sd argv fs h]
  · intro sd p s rest fs h
    rw [runMain_invalid sd p s rest fs h]

/-- Witness for C9 at concrete missing-argument and invalid-argument
invocations. -/
theorem claim_C9_witness :
    (runMain ("/aoc2020" : String).data [("./new_puzzle.py" : String).data] true).exitCode = 1 ∧
    (runMain ("/aoc2020" : String).data
      [("./new_puzzle.py" : String).data, ("abc" : String).data] true).exitCode = 1 :=
  ⟨claim_C9.1 _ _ _ (by decide), claim_C9.2 _ _ _ _ _ (by decide)⟩

/-- C10: argument validation accepts every string accepted by Python's
`int` conversion, not only plain decimal forms: `" 7 "`, `"+7"` and
`"1_0"` parse (to 7, 7 and 10), raise no invalid-argument error, and a
file is generated for the parsed integer. -/
theorem claim_C10 :
    pyInt (" 7 " : String).data = some 7 ∧
    pyInt ("+7" : String).data = some 7 ∧
    pyInt ("1_0" : String).data = some 10 ∧
    runMain ("/aoc2020" : String).data
        [("./new_puzzle.py" : String).data, (" 7 " : String).data] true =
      ⟨0, [], some (outputPath ("/aoc2020" : String).data 7, rendered 7)⟩ ∧
    runMain ("/aoc2020" : String).data
        [("./new_puzzle.py" : String).data, ("+7" : String).data] true =
      ⟨0, [], some (outputPath ("/aoc2020" : String).data 7, rendered 7)⟩ ∧
    runMain ("/aoc2020" : String).data
        [("./new_puzzle.py" : String).data, ("1_0" : String).data] true =
      ⟨0, [], some (outputPath ("/aoc2020" : String).data 10, rendered 10)⟩ := by
  refine ⟨by decide, by decide, by decide, by decide, by decide, by decide⟩

end NewPuzzle
